import Mathlib

/-
Verification of the hand-tracking-to-drawing pipeline of the Air-draw
repository (src/script.js, class DrawingManager), against its
natural-language specification.

Embedding conventions:
* JavaScript numbers on the renderer path (pixel points, canvas state) are
  embedded as exact rationals (ℚ); the gesture classifier and coordinate
  mapper, which involve Math.hypot (a square root), are embedded over ℝ.
* The persistent canvas raster is modelled as the list of stroke operations
  painted onto it since the last putImageData; getImageData returns that
  list, putImageData replaces it.  Two rasters are byte-identical exactly
  when the lists are equal.
* The JS array undoStack (push to the end, pop from the end) is modelled as
  a Lean list with the top of the stack at the head.
-/

namespace AirDraw

/-- A pixel-space point, as produced by the coordinate mapper and consumed by
the smoother and the stroke renderer (script.js: object literals {x, y}). -/
structure Point where
  x : ℚ
  y : ℚ
deriving DecidableEq, Repr

/-- The drawing settings of a 2D rendering context that DrawingManager.drawLine
touches: strokeStyle, lineWidth and lineCap. -/
structure CtxSettings where
  strokeStyle : String
  lineWidth : ℚ
  lineCap : String
deriving DecidableEq, Repr

/-- One painted stroke operation: the subpaths of the current path at the time
ctx.stroke() was called, together with the settings in force. -/
structure StrokeOp where
  subpaths : List (List Point)
  style : CtxSettings
deriving DecidableEq, Repr

/-- A 2D rendering context: current settings, the save/restore stack, the
current path (a list of subpaths) and the raster content (list of painted
stroke operations). -/
structure Ctx where
  settings : CtxSettings
  saveStack : List CtxSettings
  path : List (List Point)
  ops : List StrokeOp
deriving DecidableEq, Repr

/-- ctx.save(): push the current drawing settings. -/
def Ctx.save (c : Ctx) : Ctx :=
  { c with saveStack := c.settings :: c.saveStack }

/-- ctx.restore(): pop the most recent saved settings; no-op on an empty
save stack. -/
def Ctx.restore (c : Ctx) : Ctx :=
  match c.saveStack with
  | [] => c
  | s :: rest => { c with settings := s, saveStack := rest }

/-- ctx.strokeStyle = v. -/
def Ctx.setStrokeStyle (c : Ctx) (v : String) : Ctx :=
  { c with settings := { c.settings with strokeStyle := v } }

/-- ctx.lineWidth = v. -/
def Ctx.setLineWidth (c : Ctx) (v : ℚ) : Ctx :=
  { c with settings := { c.settings with lineWidth := v } }

/-- ctx.lineCap = v. -/
def Ctx.setLineCap (c : Ctx) (v : String) : Ctx :=
  { c with settings := { c.settings with lineCap := v } }

/-- ctx.beginPath(): reset the current path. -/
def Ctx.beginPath (c : Ctx) : Ctx :=
  { c with path := [] }

/-- ctx.moveTo(p): start a new subpath at p. -/
def Ctx.moveTo (c : Ctx) (p : Point) : Ctx :=
  { c with path := c.path ++ [[p]] }

/-- Append a point to the last subpath of a path (ctx.lineTo on a non-empty
path); on an empty path, lineTo behaves like moveTo. -/
def appendToLast (l : List (List Point)) (p : Point) : List (List Point) :=
  match l with
  | [] => [[p]]
  | [last] => [last ++ [p]]
  | a :: rest => a :: appendToLast rest p

/-- ctx.lineTo(p). -/
def Ctx.lineTo (c : Ctx) (p : Point) : Ctx :=
  { c with path := appendToLast c.path p }

/-- ctx.stroke(): paint the current path with the current settings. -/
def Ctx.stroke (c : Ctx) : Ctx :=
  { c with ops := c.ops ++ [{ subpaths := c.path, style := c.settings }] }

/-- DrawingManager.drawLine (script.js lines 405-415): save; set strokeStyle,
lineWidth, lineCap = "round"; beginPath; moveTo(from); lineTo(to); stroke;
restore. -/
def drawLine (c : Ctx) (f t : Point) (color : String) (size : ℚ) : Ctx :=
  ((((((((c.save).setStrokeStyle color).setLineWidth size).setLineCap
      "round").beginPath).moveTo f).lineTo t).stroke).restore

/-- this.smoothingWindowSize = 5 (script.js line 203). -/
def smoothingWindowSize : ℕ := 5

/-- The buffer update performed by DrawingManager.smoothPoint (script.js lines
387-390): push the raw point, then shift (drop the oldest entry) if the length
exceeds smoothingWindowSize. -/
def smoothBuf (b : List Point) (r : Point) : List Point :=
  let b' := b ++ [r]
  if b'.length > smoothingWindowSize then b'.tail else b'

/-- The average computed by DrawingManager.smoothPoint (script.js lines
391-401): componentwise sum over the buffer divided by its length. -/
def avgP (b : List Point) : Point :=
  { x := (b.map Point.x).sum / b.length, y := (b.map Point.y).sum / b.length }

/-- Feeding a list of raw points through smoothPoint's buffer, starting from a
given buffer. -/
def runSmoother (b : List Point) (raws : List Point) : List Point :=
  raws.foldl smoothBuf b

/-- The sequence of smoothed points produced by smoothPoint on a sequence of
raw points, starting from a given buffer. -/
def smoothedSeq (b : List Point) (raws : List Point) : List Point :=
  match raws with
  | [] => []
  | r :: rest => avgP (smoothBuf b r) :: smoothedSeq (smoothBuf b r) rest

/-- The stroke operations produced by drawing a round-capped segment between
each pair of consecutive points of a list. -/
def consecSegs (pts : List Point) (color : String) (size : ℚ) : List StrokeOp :=
  (pts.zip pts.tail).map fun pr =>
    { subpaths := [[pr.1, pr.2]]
      style := { strokeStyle := color, lineWidth := size, lineCap := "round" } }

/-- The mutable state of DrawingManager that the hand-tracking drawing pipeline
reads and writes (script.js lines 189-210): drawing flag, last point, undo
stack, local stroke point list, smoothing buffer, the persistent ink canvas
(its 2D context), its dimensions, and the current stroke color/size.  The
snapshots on the undo stack are full-canvas rasters (getImageData results). -/
structure DMState where
  lastPoint : Option Point
  drawing : Bool
  undoStack : List (List StrokeOp)
  points : List Point
  handSmoothing : List Point
  ctx : Ctx
  width : ℚ
  height : ℚ
  currentColor : String
  currentSize : ℚ
deriving DecidableEq, Repr

/-- The per-hand body of DrawingManager.onResults (script.js lines 303-382)
restricted to the state it mutates.  The classifier verdict (pinchDistance <
threshold) is passed in as the boolean pinch, and raw is the mapped pixel
point of the index tip; the overlay (cursor/skeleton) drawing touches only
the transient overlay canvas and is omitted.  Order as in the source:
smoothPoint is invoked (updating handSmoothing) before the pinch branch.
When drawing is true but lastPoint is null the source would throw inside
drawLine (never reached: every transition into drawing sets lastPoint);
that branch is modelled as leaving the rest of the state unchanged. -/
def processHandFrame (s : DMState) (pinch : Bool) (raw : Point) : DMState :=
  let buf := smoothBuf s.handSmoothing raw
  let point := avgP buf
  if pinch then
    if s.drawing then
      match s.lastPoint with
      | some lp =>
        { s with handSmoothing := buf
                 ctx := drawLine s.ctx lp point s.currentColor s.currentSize
                 lastPoint := some point
                 points := s.points ++ [point] }
      | none => { s with handSmoothing := buf }
    else
      { s with handSmoothing := buf
               drawing := true
               lastPoint := some point
               points := [point]
               undoStack := s.ctx.ops :: s.undoStack }
  else
    { s with handSmoothing := buf
             drawing := false
             lastPoint := none
             points := [] }

/-- DrawingManager.onResults (script.js lines 297-383): the overlay is
cleared (not modelled, transient), then the body above runs once per detected
hand; results.multiHandLandmarks defaults to the empty list, in which case
the loop body never runs. Each hand is abstracted to its classifier verdict
and its mapped raw pixel point. -/
def onResults (s : DMState) (hands : List (Bool × Point)) : DMState :=
  hands.foldl (fun t pr => processHandFrame t pr.1 pr.2) s

/-- A run of frames each carrying one detected pinching hand with the given
raw point: a continuous pinch gesture. -/
def pinchRun (s : DMState) (raws : List Point) : DMState :=
  raws.foldl (fun t r => onResults t [(true, r)]) s

/-- DrawingManager.undo (script.js lines 418-423): if the undo stack is
non-empty, pop the most recent snapshot and putImageData it back. -/
def DMState.undo (s : DMState) : DMState :=
  match s.undoStack with
  | [] => s
  | d :: rest => { s with ctx := { s.ctx with ops := d }, undoStack := rest }

/-- DrawingManager.clear (script.js lines 426-429): erase the canvas and empty
the undo stack. -/
def DMState.clear (s : DMState) : DMState :=
  { s with ctx := { s.ctx with ops := [] }, undoStack := [] }

/-- DrawingManager.resizeCanvases (script.js lines 259-278): read the stage
dimensions, getImageData the whole canvas, assign the new width/height to the
canvases (per the HTML canvas semantics this clears the raster), then
putImageData the snapshot back at the origin.  The overlay canvas and the
implicit reset of the context's default drawing settings are not modelled
(drawLine sets every setting it uses on each call). -/
def resizeCanvases (s : DMState) (w h : ℚ) : DMState :=
  let imageData := s.ctx.ops
  let s' := { s with width := w, height := h, ctx := { s.ctx with ops := [] } }
  { s' with ctx := { s'.ctx with ops := imageData } }

/-- Modelled from the spec: DrawingManager.handlePointerDown is attached as the
pointerdown listener in DrawingManager.init (script.js line 236) but its
definition is missing from the source; modelled from spec section 6:
press is mapped to pinch-start, feeding identical drawLine/undo-checkpoint
semantics without smoothing. -/
def handlePointerDown (s : DMState) (p : Point) : DMState :=
  { s with drawing := true
           lastPoint := some p
           points := [p]
           undoStack := s.ctx.ops :: s.undoStack }

/-- Modelled from the spec: DrawingManager.handlePointerMove is attached as the
pointermove listener in DrawingManager.init (script.js line 239) but its
definition is missing from the source; modelled from spec section 6:
move is mapped to pinch-continue, drawing a segment via the same drawLine,
without smoothing. -/
def handlePointerMove (s : DMState) (p : Point) : DMState :=
  if s.drawing then
    match s.lastPoint with
    | some lp =>
      { s with ctx := drawLine s.ctx lp p s.currentColor s.currentSize
               lastPoint := some p
               points := s.points ++ [p] }
    | none => s
  else s

/-- Modelled from the spec: DrawingManager.handlePointerUp is attached as the
pointerup/pointercancel/pointerleave listener in DrawingManager.init
(script.js lines 241-245) but its definition is missing from the source;
modelled from spec section 6: release/cancel/leave is mapped to pinch-end. -/
def handlePointerUp (s : DMState) : DMState :=
  { s with drawing := false, lastPoint := none, points := [] }

/-- The default drawing settings of a fresh 2D context. -/
def initCtx : Ctx :=
  { settings := { strokeStyle := "#000000", lineWidth := 1, lineCap := "butt" }
    saveStack := []
    path := []
    ops := [] }

/-- The DrawingManager state after the constructor (script.js lines 189-210):
no last point, not drawing, empty undo stack, empty buffers, default color
"#5eead4" and size 6. -/
def initState (w h : ℚ) : DMState :=
  { lastPoint := none
    drawing := false
    undoStack := []
    points := []
    handSmoothing := []
    ctx := initCtx
    width := w
    height := h
    currentColor := "#5eead4"
    currentSize := 6 }

/-- A normalized hand landmark (MediaPipe: x, y in 0..1), embedded over ℝ. -/
structure Landmark where
  x : ℝ
  y : ℝ

/-- The pinch distance (script.js lines 320-323):
Math.hypot(thumbTip.x - indexTip.x, thumbTip.y - indexTip.y), with
thumbTip = landmarks[4] and indexTip = landmarks[8]. -/
noncomputable def pinchDistance (lms : Fin 21 → Landmark) : ℝ :=
  Real.sqrt (((lms 4).x - (lms 8).x) ^ 2 + ((lms 4).y - (lms 8).y) ^ 2)

/-- The wrist-to-index reference distance (script.js lines 326-329):
Math.hypot(landmarks[0].x - indexTip.x, landmarks[0].y - indexTip.y). -/
noncomputable def wristToIndex (lms : Fin 21 → Landmark) : ℝ :=
  Real.sqrt (((lms 0).x - (lms 8).x) ^ 2 + ((lms 0).y - (lms 8).y) ^ 2)

/-- The dynamic threshold (script.js line 330): wristToIndex * 0.15. -/
noncomputable def pinchThreshold (lms : Fin 21 → Landmark) : ℝ :=
  wristToIndex lms * 0.15

/-- The classifier verdict (script.js line 356): pinchDistance < threshold. -/
def isPinch (lms : Fin 21 → Landmark) : Prop :=
  pinchDistance lms < pinchThreshold lms

/-- A pixel-space point over ℝ, for the coordinate mapper. -/
structure RPoint where
  x : ℝ
  y : ℝ

/-- The coordinate mapper (script.js lines 333-342): xNorm is the index tip x,
reflected once if the mirror checkbox (the feed-mirror flag) is checked, and
once more if this.isMirrored (the drawing-mirror override) is set; the pixel
point is (xNorm * width, indexTip.y * height). -/
def mapIndexTip (feedMirror drawMirror : Bool) (indexTip : Landmark)
    (w h : ℝ) : RPoint :=
  let xNorm := if feedMirror then 1 - indexTip.x else indexTip.x
  let xNorm' := if drawMirror then 1 - xNorm else xNorm
  { x := xNorm' * w, y := indexTip.y * h }

/-! ### Helper lemmas -/

/-- Full characterization of drawLine: settings and save stack are restored,
the current path becomes the single segment, and exactly one round-capped
stroke operation is appended to the raster. -/
theorem drawLine_eq (c : Ctx) (f t : Point) (color : String) (size : ℚ) :
    drawLine c f t color size =
      { c with
        path := [[f, t]]
        ops := c.ops ++
          [{ subpaths := [[f, t]]
             style := { strokeStyle := color, lineWidth := size,
                        lineCap := "round" } }] } := rfl

/-- processHandFrame on a pinching frame from a non-drawing state:
the Idle → Drawing transition of the state machine. -/
theorem processHandFrame_start (s : DMState) (r : Point)
    (hd : s.drawing = false) :
    processHandFrame s true r =
      { s with handSmoothing := smoothBuf s.handSmoothing r
               drawing := true
               lastPoint := some (avgP (smoothBuf s.handSmoothing r))
               points := [avgP (smoothBuf s.handSmoothing r)]
               undoStack := s.ctx.ops :: s.undoStack } := by
  simp [processHandFrame, hd]

/-- processHandFrame on a pinching frame from a drawing state with a last
point: the Drawing → Drawing transition of the state machine. -/
theorem processHandFrame_continue (s : DMState) (r p : Point)
    (hd : s.drawing = true) (hlp : s.lastPoint = some p) :
    processHandFrame s true r =
      { s with handSmoothing := smoothBuf s.handSmoothing r
               ctx := drawLine s.ctx p (avgP (smoothBuf s.handSmoothing r))
                        s.currentColor s.currentSize
               lastPoint := some (avgP (smoothBuf s.handSmoothing r))
               points := s.points ++ [avgP (smoothBuf s.handSmoothing r)] } := by
  simp [processHandFrame, hd, hlp]

/-- processHandFrame on a non-pinching frame: the → Idle transition; only the
smoothing buffer is advanced, the raster, undo stack, color and size are
untouched. -/
theorem processHandFrame_stop (s : DMState) (r : Point) :
    processHandFrame s false r =
      { s with handSmoothing := smoothBuf s.handSmoothing r
               drawing := false
               lastPoint := none
               points := [] } := by
  simp [processHandFrame]

/-- consecSegs on a list with at least two points peels off the first
segment. -/
theorem consecSegs_cons (a b : Point) (l : List Point) (color : String)
    (size : ℚ) :
    consecSegs (a :: b :: l) color size =
      { subpaths := [[a, b]]
        style := { strokeStyle := color, lineWidth := size,
                   lineCap := "round" } } :: consecSegs (b :: l) color size := by
  simp [consecSegs]

/-- consecSegs produces one fewer operation than it is given points. -/
theorem consecSegs_length (pts : List Point) (color : String) (size : ℚ) :
    (consecSegs pts color size).length = pts.length - 1 := by
  cases pts <;> simp [consecSegs, List.length_zip]

/-- smoothedSeq produces one smoothed point per raw point. -/
theorem smoothedSeq_length (b raws : List Point) :
    (smoothedSeq b raws).length = raws.length := by
  induction raws generalizing b with
  | nil => simp [smoothedSeq]
  | cons r rest ih => simp [smoothedSeq, ih]

/-- The invariant run of a continuous pinch gesture from a state that is
already drawing: every frame draws one segment, the undo stack is untouched,
and the bookkeeping fields evolve as expected. -/
theorem pinchRun_drawing (raws : List Point) :
    ∀ (s : DMState) (p : Point), s.drawing = true → s.lastPoint = some p →
      (pinchRun s raws).ctx.ops =
          s.ctx.ops ++ consecSegs (p :: smoothedSeq s.handSmoothing raws)
            s.currentColor s.currentSize
      ∧ (pinchRun s raws).undoStack = s.undoStack
      ∧ (pinchRun s raws).drawing = true
      ∧ (pinchRun s raws).lastPoint =
          some ((smoothedSeq s.handSmoothing raws).getLastD p)
      ∧ (pinchRun s raws).currentColor = s.currentColor
      ∧ (pinchRun s raws).currentSize = s.currentSize := by
  induction raws with
  | nil =>
    intro s p hd hlp
    simp [pinchRun, consecSegs, smoothedSeq, hd, hlp]
  | cons r rest ih =>
    intro s p hd hlp
    have hstep : pinchRun s (r :: rest) =
        pinchRun (processHandFrame s true r) rest := by
      simp [pinchRun, onResults]
    have hd1 : (processHandFrame s true r).drawing = true := by
      simp [processHandFrame, hd, hlp]
    have hlp1 : (processHandFrame s true r).lastPoint =
        some (avgP (smoothBuf s.handSmoothing r)) := by
      simp [processHandFrame, hd, hlp]
    have hops1 : (processHandFrame s true r).ctx.ops = s.ctx.ops ++
        [{ subpaths := [[p, avgP (smoothBuf s.handSmoothing r)]]
           style := { strokeStyle := s.currentColor,
                      lineWidth := s.currentSize, lineCap := "round" } }] := by
      simp [processHandFrame, hd, hlp, drawLine_eq]
    have hundo1 : (processHandFrame s true r).undoStack = s.undoStack := by
      simp [processHandFrame, hd, hlp]
    have hbuf1 : (processHandFrame s true r).handSmoothing =
        smoothBuf s.handSmoothing r := by
      simp [processHandFrame, hd, hlp]
    have hcol1 : (processHandFrame s true r).currentColor = s.currentColor := by
      simp [processHandFrame, hd, hlp]
    have hsiz1 : (processHandFrame s true r).currentSize = s.currentSize := by
      simp [processHandFrame, hd, hlp]
    obtain ⟨hops, hundo, hdraw, hlast, hcol, hsize⟩ :=
      ih (processHandFrame s true r) (avgP (smoothBuf s.handSmoothing r))
        hd1 hlp1
    rw [hstep]
    refine ⟨?_, by rw [hundo, hundo1], hdraw, ?_,
      by rw [hcol, hcol1], by rw [hsize, hsiz1]⟩
    · rw [hops, hops1, hbuf1, hcol1, hsiz1, smoothedSeq, consecSegs_cons,
        List.append_assoc, List.singleton_append]
    · rw [hlast, hbuf1, smoothedSeq, List.getLastD_cons]

/-- The full specification of a continuous pinch gesture started from an idle
state: exactly one snapshot (of the pre-gesture raster) is pushed, and the
raster gains exactly the segments connecting consecutive smoothed points. -/
theorem pinchRun_start_spec (s : DMState) (raws : List Point)
    (hd : s.drawing = false) (hne : raws ≠ []) :
    (pinchRun s raws).undoStack = s.ctx.ops :: s.undoStack
    ∧ (pinchRun s raws).ctx.ops =
        s.ctx.ops ++ consecSegs (smoothedSeq s.handSmoothing raws)
          s.currentColor s.currentSize
    ∧ (pinchRun s raws).drawing = true := by
  cases raws with
  | nil => exact absurd rfl hne
  | cons r rest =>
    have hstep : pinchRun s (r :: rest) =
        pinchRun (processHandFrame s true r) rest := by
      simp [pinchRun, onResults]
    have hd1 : (processHandFrame s true r).drawing = true := by
      simp [processHandFrame, hd]
    have hlp1 : (processHandFrame s true r).lastPoint =
        some (avgP (smoothBuf s.handSmoothing r)) := by
      simp [processHandFrame, hd]
    have hops1 : (processHandFrame s true r).ctx.ops = s.ctx.ops := by
      simp [processHandFrame, hd]
    have hundo1 : (processHandFrame s true r).undoStack =
        s.ctx.ops :: s.undoStack := by
      simp [processHandFrame, hd]
    have hbuf1 : (processHandFrame s true r).handSmoothing =
        smoothBuf s.handSmoothing r := by
      simp [processHandFrame, hd]
    have hcol1 : (processHandFrame s true r).currentColor = s.currentColor := by
      simp [processHandFrame, hd]
    have hsiz1 : (processHandFrame s true r).currentSize = s.currentSize := by
      simp [processHandFrame, hd]
    obtain ⟨hops, hundo, hdraw, _, _, _⟩ :=
      pinchRun_drawing rest (processHandFrame s true r)
        (avgP (smoothBuf s.handSmoothing r)) hd1 hlp1
    rw [hstep]
    refine ⟨by rw [hundo, hundo1], ?_, hdraw⟩
    rw [hops, hops1, hbuf1, hcol1, hsiz1, smoothedSeq]

/-- Closed form of the buffer update: appending the raw point and keeping the
last smoothingWindowSize entries (oldest dropped first). -/
theorem smoothBuf_eq_drop (b : List Point) (r : Point)
    (h : b.length ≤ smoothingWindowSize) :
    smoothBuf b r = (b ++ [r]).drop (b.length + 1 - smoothingWindowSize) := by
  simp only [smoothBuf, smoothingWindowSize, List.length_append,
    List.length_singleton] at *
  split
  next hgt =>
    have h5 : b.length = 5 := by omega
    rw [h5, List.drop_one]
  next hle =>
    have h0 : b.length + 1 - 5 = 0 := by omega
    rw [h0, List.drop_zero]

/-- The buffer never grows past smoothingWindowSize entries. -/
theorem smoothBuf_len_le (b : List Point) (r : Point)
    (h : b.length ≤ smoothingWindowSize) :
    (smoothBuf b r).length ≤ smoothingWindowSize := by
  rw [smoothBuf_eq_drop b r h]
  simp only [List.length_drop, List.length_append, List.length_singleton]
  omega

/-- Running the smoother keeps exactly the last smoothingWindowSize points of
the whole input history (initial buffer followed by the raw points). -/
theorem runSmoother_eq_drop (raws : List Point) :
    ∀ b : List Point, b.length ≤ smoothingWindowSize →
      runSmoother b raws =
        (b ++ raws).drop ((b ++ raws).length - smoothingWindowSize) := by
  induction raws with
  | nil =>
    intro b h
    simp only [runSmoother, List.foldl_nil, List.append_nil]
    have h0 : b.length - smoothingWindowSize = 0 := by omega
    rw [h0, List.drop_zero]
  | cons r rest ih =>
    intro b h
    have hstep : runSmoother b (r :: rest) =
        runSmoother (smoothBuf b r) rest := rfl
    rw [hstep, ih _ (smoothBuf_len_le b r h)]
    rcases Nat.lt_or_ge b.length smoothingWindowSize with hlt | hge
    · have hb : smoothBuf b r = b ++ [r] := by
        rw [smoothBuf_eq_drop b r h]
        have h0 : b.length + 1 - smoothingWindowSize = 0 := by
          simp only [smoothingWindowSize] at *
          omega
        rw [h0, List.drop_zero]
      rw [hb, List.append_assoc, List.singleton_append]
    · have h5 : b.length = smoothingWindowSize := le_antisymm h hge
      have hbne : b ≠ [] := by
        intro hb0
        rw [hb0] at h5
        simp [smoothingWindowSize] at h5
      obtain ⟨a, b', rfl⟩ := List.exists_cons_of_ne_nil hbne
      have hb4 : b'.length = 4 := by
        simp only [List.length_cons, smoothingWindowSize] at h5
        omega
      have hb : smoothBuf (a :: b') r = b' ++ [r] := by
        rw [smoothBuf_eq_drop _ r h, h5]
        simp only [smoothingWindowSize, Nat.add_sub_cancel_left,
          Nat.succ_sub_succ]
        rw [List.cons_append, List.drop_one, List.tail_cons]
      rw [hb]
      have l1 : (b' ++ [r]) ++ rest = b' ++ r :: rest := by
        rw [List.append_assoc, List.singleton_append]
      have l2 : (a :: b') ++ r :: rest = a :: (b' ++ r :: rest) :=
        List.cons_append a b' (r :: rest)
      rw [l1, l2]
      have hL : (b' ++ r :: rest).length - smoothingWindowSize =
          rest.length := by
        simp only [List.length_append, List.length_cons, hb4,
          smoothingWindowSize]
        omega
      have hR : (a :: (b' ++ r :: rest)).length - smoothingWindowSize =
          rest.length + 1 := by
        simp only [List.length_cons, List.length_append, hb4,
          smoothingWindowSize]
        omega
      rw [hL, hR, List.drop_succ_cons]

/-- After at least smoothingWindowSize pushes of the same point, the buffer
holds exactly smoothingWindowSize copies of it. -/
theorem runSmoother_replicate (b raws : List Point) (p : Point) (k : ℕ)
    (hb : b.length ≤ smoothingWindowSize) (hk : smoothingWindowSize ≤ k) :
    runSmoother b (raws ++ List.replicate k p) =
      List.replicate smoothingWindowSize p := by
  rw [runSmoother_eq_drop _ _ hb]
  rw [show b ++ (raws ++ List.replicate k p) =
    (b ++ raws) ++ List.replicate k p from (List.append_assoc _ _ _).symm]
  have hlen : ((b ++ raws) ++ List.replicate k p).length -
      smoothingWindowSize =
      (b ++ raws).length + (k - smoothingWindowSize) := by
    simp only [List.length_append, List.length_replicate]
    omega
  rw [hlen, List.drop_append]
  have hrep : List.replicate k p =
      List.replicate (k - smoothingWindowSize) p ++
        List.replicate smoothingWindowSize p := by
    rw [← List.replicate_add]
    congr 1
    omega
  rw [hrep]
  have hdl := List.drop_left (List.replicate (k - smoothingWindowSize) p)
    (List.replicate smoothingWindowSize p)
  rw [List.length_replicate] at hdl
  exact hdl

/-- The average of smoothingWindowSize copies of a point is that point. -/
theorem avgP_replicate (p : Point) :
    avgP (List.replicate smoothingWindowSize p) = p := by
  cases p with
  | mk px py =>
    simp only [avgP, smoothingWindowSize, List.map_replicate,
      List.sum_replicate, List.length_replicate, nsmul_eq_mul,
      Nat.cast_ofNat, Point.mk.injEq]
    constructor <;> field_simp

/-- The average of a single-point buffer is that point. -/
theorem avgP_single (p : Point) : avgP [p] = p := by
  cases p with
  | mk px py => simp [avgP]

/-- Pushing a point into an empty buffer yields the singleton buffer. -/
theorem smoothBuf_nil (r : Point) : smoothBuf [] r = [r] := rfl

/-! ### Claim theorems -/

/-- C10: drawLine strokes exactly one round-capped line segment from the first
point to the second on the persistent canvas, and the context's drawing
settings (strokeStyle, lineWidth, lineCap) are saved before and restored
after, so they are unchanged when it returns. -/
theorem drawLine_frame_effect (c : Ctx) (f t : Point) (color : String)
    (size : ℚ) :
    (drawLine c f t color size).settings = c.settings
    ∧ (drawLine c f t color size).saveStack = c.saveStack
    ∧ (drawLine c f t color size).ops = c.ops ++
        [{ subpaths := [[f, t]]
           style := { strokeStyle := color, lineWidth := size,
                      lineCap := "round" } }] :=
  ⟨rfl, rfl, rfl⟩

/-- C9: every canvas resize, including one occurring mid-stroke, preserves the
raster content of the persistent ink canvas (the pre-resize snapshot is put
back at the origin after the dimensions change) and does not reset the
in-progress stroke state: drawing flag, last point, point buffers and undo
stack are untouched.  The model is a total function, so no exception is
raised. -/
theorem resize_preserves_raster_and_stroke (s : DMState) (w h : ℚ) :
    (resizeCanvases s w h).ctx.ops = s.ctx.ops
    ∧ (resizeCanvases s w h).drawing = s.drawing
    ∧ (resizeCanvases s w h).lastPoint = s.lastPoint
    ∧ (resizeCanvases s w h).points = s.points
    ∧ (resizeCanvases s w h).handSmoothing = s.handSmoothing
    ∧ (resizeCanvases s w h).undoStack = s.undoStack
    ∧ (resizeCanvases s w h).width = w
    ∧ (resizeCanvases s w h).height = h :=
  ⟨rfl, rfl, rfl, rfl, rfl, rfl, rfl, rfl⟩

/-- A concrete mid-stroke state used as the C3 counterexample input. -/
def cexState : DMState :=
  { initState 100 100 with
      drawing := true
      lastPoint := some ⟨5, 5⟩
      points := [⟨5, 5⟩] }

/-- C3 counterexample: on a frame with an empty landmark list, the source skips
the whole hand loop, so from a Drawing state the drawing flag stays true, the
last point stays set and the point buffer stays non-empty, contradicting the
claimed Drawing → Idle transition. -/
theorem no_hand_cex :
    cexState.drawing = true
    ∧ (onResults cexState []).drawing = true
    ∧ (onResults cexState []).lastPoint = some ⟨5, 5⟩
    ∧ (onResults cexState []).points = [⟨5, 5⟩]
    ∧ ¬((onResults cexState []).drawing = false
        ∧ (onResults cexState []).lastPoint = none
        ∧ (onResults cexState []).points = []) := by
  decide

/-- C3 amended: on every frame in which the landmark source delivers no hand
(empty landmark list), the state is left entirely unchanged — the drawing
flag, last point and local point buffer keep their values (in particular the
code does not transition Drawing to Idle) and the persistent canvas raster is
unchanged. -/
theorem no_hand_state_unchanged (s : DMState) :
    onResults s [] = s
    ∧ (onResults s []).drawing = s.drawing
    ∧ (onResults s []).lastPoint = s.lastPoint
    ∧ (onResults s []).points = s.points
    ∧ (onResults s []).ctx.ops = s.ctx.ops :=
  ⟨rfl, rfl, rfl, rfl, rfl⟩

/-- C2: across a continuous pinch gesture spanning N ≥ 1 frames with a
detected hand — pinch false on the frame before, true on all N frames, false
on the frame after — exactly one full-canvas snapshot is pushed onto the undo
stack, equal to the raster at the start of the gesture, and exactly N−1 line
segments are drawn, connecting consecutive smoothed points. -/
theorem pinch_gesture_one_snapshot_and_segments (s : DMState) (r0 r1 : Point)
    (raws : List Point) (hne : raws ≠ []) :
    (processHandFrame (pinchRun (processHandFrame s false r0) raws) false
        r1).undoStack = s.ctx.ops :: s.undoStack
    ∧ (processHandFrame (pinchRun (processHandFrame s false r0) raws) false
        r1).ctx.ops = s.ctx.ops ++
          consecSegs (smoothedSeq (smoothBuf s.handSmoothing r0) raws)
            s.currentColor s.currentSize
    ∧ (processHandFrame (pinchRun (processHandFrame s false r0) raws) false
        r1).ctx.ops.length = s.ctx.ops.length + (raws.length - 1) := by
  have h0 := processHandFrame_stop s r0
  have hd0 : (processHandFrame s false r0).drawing = false := by
    rw [h0]
  obtain ⟨hundo, hops, _⟩ :=
    pinchRun_start_spec (processHandFrame s false r0) raws hd0 hne
  have hstop := processHandFrame_stop
    (pinchRun (processHandFrame s false r0) raws) r1
  have hundo' : (processHandFrame (pinchRun (processHandFrame s false r0)
      raws) false r1).undoStack =
      (pinchRun (processHandFrame s false r0) raws).undoStack := by
    rw [hstop]
  have hops' : (processHandFrame (pinchRun (processHandFrame s false r0)
      raws) false r1).ctx.ops =
      (pinchRun (processHandFrame s false r0) raws).ctx.ops := by
    rw [hstop]
  rw [hundo', hops', hundo, hops, h0]
  refine ⟨rfl, rfl, ?_⟩
  simp [consecSegs_length, smoothedSeq_length]

/-- C2 witness: the gesture specification instantiated on the initial state
with a two-frame gesture. -/
theorem pinch_gesture_one_snapshot_and_segments_witness :
    ([(⟨1, 1⟩ : Point), ⟨3, 3⟩] ≠ ([] : List Point))
    ∧ ((processHandFrame (pinchRun (processHandFrame (initState 100 100) false
          ⟨0, 0⟩) [⟨1, 1⟩, ⟨3, 3⟩]) false ⟨9, 9⟩).undoStack =
            (initState 100 100).ctx.ops :: (initState 100 100).undoStack
        ∧ (processHandFrame (pinchRun (processHandFrame (initState 100 100)
            false ⟨0, 0⟩) [⟨1, 1⟩, ⟨3, 3⟩]) false ⟨9, 9⟩).ctx.ops =
              (initState 100 100).ctx.ops ++
                consecSegs (smoothedSeq
                    (smoothBuf (initState 100 100).handSmoothing ⟨0, 0⟩)
                    [⟨1, 1⟩, ⟨3, 3⟩])
                  (initState 100 100).currentColor
                  (initState 100 100).currentSize
        ∧ (processHandFrame (pinchRun (processHandFrame (initState 100 100)
            false ⟨0, 0⟩) [⟨1, 1⟩, ⟨3, 3⟩]) false ⟨9, 9⟩).ctx.ops.length =
              (initState 100 100).ctx.ops.length +
                (([(⟨1, 1⟩ : Point), ⟨3, 3⟩]).length - 1)) :=
  ⟨by decide,
    pinch_gesture_one_snapshot_and_segments (initState 100 100) ⟨0, 0⟩ ⟨9, 9⟩
      [⟨1, 1⟩, ⟨3, 3⟩] (by decide)⟩

/-- C7: undo with a non-empty stack pops the most recent snapshot and replaces
the canvas raster with it; undo with an empty stack is a no-op; in
particular, undoing right after a completed stroke restores the exact
pre-stroke raster. -/
theorem undo_pop_restore :
    (∀ s : DMState, s.undoStack = [] → DMState.undo s = s)
    ∧ (∀ (s : DMState) (d : List StrokeOp) (rest : List (List StrokeOp)),
        s.undoStack = d :: rest →
          (DMState.undo s).ctx.ops = d ∧ (DMState.undo s).undoStack = rest)
    ∧ (∀ (s : DMState) (raws : List Point), s.drawing = false → raws ≠ [] →
        (DMState.undo (pinchRun s raws)).ctx.ops = s.ctx.ops) := by
  refine ⟨?_, ?_, ?_⟩
  · intro s h
    simp [DMState.undo, h]
  · intro s d rest h
    simp [DMState.undo, h]
  · intro s raws hd hne
    obtain ⟨hundo, _, _⟩ := pinchRun_start_spec s raws hd hne
    simp [DMState.undo, hundo]

/-- C7 witness: undo on an empty stack and undo after a concrete one-stroke
gesture. -/
theorem undo_pop_restore_witness :
    ((initState 100 100).undoStack = [] ∧
      DMState.undo (initState 100 100) = initState 100 100)
    ∧ ((initState 100 100).drawing = false
        ∧ ([(⟨1, 1⟩ : Point), ⟨3, 3⟩] ≠ ([] : List Point))
        ∧ (DMState.undo (pinchRun (initState 100 100)
            [⟨1, 1⟩, ⟨3, 3⟩])).ctx.ops = (initState 100 100).ctx.ops) :=
  ⟨⟨by decide, undo_pop_restore.1 (initState 100 100) (by decide)⟩,
    by decide, by decide,
    undo_pop_restore.2.2 (initState 100 100) [⟨1, 1⟩, ⟨3, 3⟩]
      (by decide) (by decide)⟩

/-- C6: the smoother's buffer is a FIFO capped at 5 entries — the newest point
is appended and, past capacity, exactly the oldest entry is evicted — its
output is the arithmetic mean of the buffered points, and for any input
sequence ending in 5 or more identical raw points the output equals that
point exactly. -/
theorem smoother_fifo_mean_convergence :
    (∀ (b : List Point) (r : Point), b.length ≤ smoothingWindowSize →
        smoothBuf b r = (b ++ [r]).drop (b.length + 1 - smoothingWindowSize)
        ∧ (smoothBuf b r).length ≤ smoothingWindowSize)
    ∧ (∀ b : List Point,
        avgP b = { x := (b.map Point.x).sum / b.length,
                   y := (b.map Point.y).sum / b.length })
    ∧ (∀ (b raws : List Point) (p : Point) (k : ℕ),
        b.length ≤ smoothingWindowSize → smoothingWindowSize ≤ k →
          avgP (runSmoother b (raws ++ List.replicate k p)) = p) := by
  refine ⟨?_, ?_, ?_⟩
  · intro b r h
    exact ⟨smoothBuf_eq_drop b r h, smoothBuf_len_le b r h⟩
  · intro b
    rfl
  · intro b raws p k hb hk
    rw [runSmoother_replicate b raws p k hb hk, avgP_replicate]

/-- C6 witness: stationary convergence on a concrete run — an empty buffer,
one stray point, then five identical points. -/
theorem smoother_fifo_mean_convergence_witness :
    (([] : List Point).length ≤ smoothingWindowSize)
    ∧ (smoothingWindowSize ≤ 5)
    ∧ avgP (runSmoother []
        ([(⟨7, 7⟩ : Point)] ++ List.replicate 5 (⟨2, 3⟩ : Point))) = ⟨2, 3⟩ :=
  ⟨by decide, by decide,
    smoother_fifo_mean_convergence.2.2 [] [⟨7, 7⟩] ⟨2, 3⟩ 5
      (by decide) (by decide)⟩

/-- C8: the smoothing buffer is never cleared by stroke transitions — after
every frame with a detected hand its new value is smoothBuf of its previous
value and the raw point, whatever the pinch verdict and drawing flag
(including the Drawing → Idle transition), so entries leave only by FIFO
eviction past capacity, and the first smoothed point of a new stroke is the
average over a buffer still holding the previous stroke's tail. -/
theorem smoothing_window_persists :
    (∀ (s : DMState) (pinch : Bool) (raw : Point),
        (processHandFrame s pinch raw).handSmoothing =
          smoothBuf s.handSmoothing raw)
    ∧ (∀ (s : DMState) (raw : Point), s.drawing = true →
        (processHandFrame s false raw).drawing = false
        ∧ (processHandFrame s false raw).handSmoothing =
            smoothBuf s.handSmoothing raw)
    ∧ (∀ (b : List Point) (r : Point), b.length ≤ smoothingWindowSize →
        smoothBuf b r = (b ++ [r]).drop (b.length + 1 - smoothingWindowSize))
    ∧ (∀ (s : DMState) (raw : Point), s.drawing = false →
        (processHandFrame s true raw).lastPoint =
          some (avgP (smoothBuf s.handSmoothing raw))) := by
  refine ⟨?_, ?_, ?_, ?_⟩
  · intro s pinch raw
    cases pinch <;> cases hd : s.drawing <;> cases hlp : s.lastPoint <;>
      simp [processHandFrame, hd, hlp]
  · intro s raw _
    exact ⟨by simp [processHandFrame], by simp [processHandFrame]⟩
  · intro b r h
    exact smoothBuf_eq_drop b r h
  · intro s raw hd
    simp [processHandFrame, hd]

/-- A concrete mid-stroke state with a non-empty smoothing buffer, for the C8
witness. -/
def exDrawState : DMState :=
  { initState 50 50 with
      drawing := true
      lastPoint := some ⟨4, 4⟩
      handSmoothing := [⟨4, 4⟩] }

/-- C8 witness: a Drawing → Idle transition on a concrete drawing state keeps
the smoothing buffer. -/
theorem smoothing_window_persists_witness :
    exDrawState.drawing = true
    ∧ ((processHandFrame exDrawState false ⟨1, 2⟩).drawing = false
        ∧ (processHandFrame exDrawState false ⟨1, 2⟩).handSmoothing =
            smoothBuf exDrawState.handSmoothing ⟨1, 2⟩) :=
  ⟨by decide, smoothing_window_persists.2.1 exDrawState ⟨1, 2⟩ (by decide)⟩

/-- C4: the pointer input path drives the same three-state model as the pinch
path — press behaves as pinch-start (undo checkpoint pushed, last point set),
move as pinch-continue (segment drawn via the same drawLine), release/cancel/
leave as pinch-end — except that pointer points are not smoothed: on an empty
smoothing buffer (where smoothing is the identity) each handler produces
exactly the pinch-path state with the smoothing buffer left untouched. -/
theorem pointer_path_matches_pinch_path :
    (∀ (s : DMState) (p : Point), s.drawing = false → s.handSmoothing = [] →
        handlePointerDown s p =
          { processHandFrame s true p with handSmoothing := s.handSmoothing })
    ∧ (∀ (s : DMState) (p lp : Point), s.drawing = true →
        s.lastPoint = some lp → s.handSmoothing = [] →
        handlePointerMove s p =
          { processHandFrame s true p with handSmoothing := s.handSmoothing })
    ∧ (∀ (s : DMState) (raw : Point),
        handlePointerUp s =
          { processHandFrame s false raw with
              handSmoothing := s.handSmoothing }) := by
  refine ⟨?_, ?_, ?_⟩
  · intro s p hd hbuf
    simp [handlePointerDown, processHandFrame, hd, hbuf, smoothBuf_nil,
      avgP_single]
  · intro s p lp hd hlp hbuf
    simp [handlePointerMove, processHandFrame, hd, hlp, hbuf, smoothBuf_nil,
      avgP_single]
  · intro s raw
    simp [handlePointerUp, processHandFrame]

/-- C4 witness: press on a concrete idle state with an empty smoothing buffer
produces the pinch-start state with the buffer untouched. -/
theorem pointer_path_matches_pinch_path_witness :
    (initState 80 60).drawing = false
    ∧ (initState 80 60).handSmoothing = []
    ∧ handlePointerDown (initState 80 60) ⟨10, 20⟩ =
        { processHandFrame (initState 80 60) true ⟨10, 20⟩ with
            handSmoothing := (initState 80 60).handSmoothing } :=
  ⟨by decide, by decide,
    pointer_path_matches_pinch_path.1 (initState 80 60) ⟨10, 20⟩
      (by decide) (by decide)⟩

/-- C5: the coordinate mapper sends normalized x to (1−x)·width when the
feed-mirror flag is set and the drawing-mirror override is not, and to
x·width when both flags are set or both are clear (the two reflections
cancel); y is always y·height. -/
theorem mirror_mapping (l : Landmark) (w h : ℝ) :
    (mapIndexTip true false l w h).x = (1 - l.x) * w
    ∧ (mapIndexTip true true l w h).x = l.x * w
    ∧ (mapIndexTip false false l w h).x = l.x * w
    ∧ ∀ fm dm : Bool, (mapIndexTip fm dm l w h).y = l.y * h := by
  refine ⟨rfl, ?_, rfl, fun fm dm => rfl⟩
  show (1 - (1 - l.x)) * w = l.x * w
  ring

/-- C1: the classifier reports pinch exactly when the Euclidean distance
between thumb tip (landmark 4) and index tip (landmark 8) is strictly below
0.15 times the wrist (landmark 0) to index tip distance — equivalently, in
squared form, when the squared pinch distance is below 0.15² times the
squared reference distance — and a distance exactly equal to the threshold
is not a pinch. -/
theorem pinch_strict_threshold (lms : Fin 21 → Landmark) :
    (isPinch lms ↔ pinchDistance lms < 0.15 * wristToIndex lms)
    ∧ (isPinch lms ↔
        ((lms 4).x - (lms 8).x) ^ 2 + ((lms 4).y - (lms 8).y) ^ 2 <
          0.15 ^ 2 *
            (((lms 0).x - (lms 8).x) ^ 2 + ((lms 0).y - (lms 8).y) ^ 2))
    ∧ (pinchDistance lms = pinchThreshold lms → ¬isPinch lms) := by
  refine ⟨?_, ?_, ?_⟩
  · rw [isPinch, pinchThreshold, mul_comm]
  · rw [isPinch, pinchThreshold, pinchDistance, wristToIndex]
    set A := ((lms 4).x - (lms 8).x) ^ 2 + ((lms 4).y - (lms 8).y) ^ 2
      with hA
    set B := ((lms 0).x - (lms 8).x) ^ 2 + ((lms 0).y - (lms 8).y) ^ 2
      with hB
    have hA0 : 0 ≤ A := by rw [hA]; positivity
    have hB0 : 0 ≤ B := by rw [hB]; positivity
    have h15 : Real.sqrt B * 0.15 = Real.sqrt (B * 0.15 ^ 2) := by
      rw [Real.sqrt_mul hB0, Real.sqrt_sq (by norm_num : (0:ℝ) ≤ 0.15)]
    rw [h15, Real.sqrt_lt_sqrt_iff hA0, mul_comm B (0.15 ^ 2)]
  · intro heq hlt
    rw [isPinch, heq] at hlt
    exact lt_irrefl _ hlt

/-- Landmark set with every landmark at the origin: both the pinch distance
and the threshold evaluate to zero, putting the classifier exactly on the
boundary. -/
def exLms : Fin 21 → Landmark := fun _ => { x := 0, y := 0 }

/-- C1 witness: on the boundary (distance = threshold) the verdict is
not-pinch. -/
theorem pinch_strict_threshold_witness :
    pinchDistance exLms = pinchThreshold exLms ∧ ¬isPinch exLms := by
  have heq : pinchDistance exLms = pinchThreshold exLms := by
    simp [pinchDistance, pinchThreshold, wristToIndex, exLms]
  exact ⟨heq, (pinch_strict_threshold exLms).2.2 heq⟩

end AirDraw
